import Mathlib

set_option maxRecDepth 1000000

/-!
Shallow embedding of the donation-form linter
(`src/basic.js`, class `DonationFormValidator`, together with the
`fixFormHTML` rewrite pass that only appears in the second copy of the
validator shipped in this repository).

Markup strings are modeled as `List Char` (the character sequence of the
JavaScript string).  The regular-expression scans of the source are embedded
as explicit character-list scanners with the exact semantics of the regexes
used there (leftmost match, greedy quantifiers, scanning resumes after each
match, as with JavaScript `String.match` with the `g` flag and
`replaceAll`).  Fallible steps of the source (indexing into a possibly-null
match result) are mirrored by `Option`-valued variants; the total variants
use `Option.getD` at those spots, and the equivalence of the two is proved
below (claim C2).
-/

namespace DonationForm

/-- Substring containment, modeling JavaScript `String.prototype.includes`
(`pat` is the needle, the second argument the haystack). -/
def containsSub (pat : List Char) : List Char → Bool
  | [] => pat.isEmpty
  | c :: cs => pat.isPrefixOf (c :: cs) || containsSub pat cs

/-- Matching of the regex fragment `P([^"]+)"` at the start of `s`, where
`P` is a literal: the literal, then a nonempty greedy run of non-quote
characters (the capture group), then a closing double quote.  Returns the
captured group. -/
def matchPG (P : List Char) (s : List Char) : Option (List Char) :=
  if P.isPrefixOf s then
    let r := s.drop P.length
    let g := r.takeWhile (fun c => c != '"')
    if g.isEmpty then none
    else
      match r.drop g.length with
      | '"' :: _ => some g
      | _ => none
  else none

/-- First match of `P([^"]+)"` anywhere in the string, returning the capture
group.  This models the non-global `String.prototype.match` calls such as
`m.match(/for="([^"]+)"/)[1]` used to re-extract a group from a match. -/
def extractGroup (P : List Char) : List Char → Option (List Char)
  | [] => none
  | c :: cs =>
    match matchPG P (c :: cs) with
    | some g => some g
    | none => extractGroup P cs

/-- Global scan: repeatedly find the leftmost match of `m` (which returns
the matched text and its total length) and resume scanning right after the
matched text, as `String.prototype.match` with the `g` flag does.  The fuel
argument bounds the number of steps; each step consumes at least one
character, so fuel `s.length` is always sufficient (`scanAllF_fuel`). -/
def scanAllF (m : List Char → Option (List Char × Nat)) : Nat → List Char → List (List Char)
  | _, [] => []
  | 0, _ :: _ => []
  | f + 1, c :: cs =>
    match m (c :: cs) with
    | some (t, n) => t :: scanAllF m f (cs.drop (n - 1))
    | none => scanAllF m f cs

/-- All matches of `m` in `s`, in order. -/
def scanAll (m : List Char → Option (List Char × Nat)) (s : List Char) : List (List Char) :=
  scanAllF m s.length s

def labelForLit : List Char := "<label for=\"".data

def inputLit : List Char := "<input".data

def labelLit : List Char := "<label".data

def idLit : List Char := "id=\"".data

def forLit : List Char := "for=\"".data

def typeLit : List Char := "type=\"".data

def typeTextLit : List Char := "type=\"text\"".data

def typeEmailLit : List Char := "type=\"email\"".data

def typeNumberLit : List Char := "type=\"number\"".data

def requiredLit : List Char := "required".data

def closeInputLit : List Char := "</input>".data

/-- One match of `/<label for="([^"]+)">/` at the start of `s`: the literal
`<label for="`, a nonempty run of non-quote characters, then `">`.  Returns
the matched text and its length. -/
def matchLabelGT (s : List Char) : Option (List Char × Nat) :=
  if labelForLit.isPrefixOf s then
    let r := s.drop 12
    let g := r.takeWhile (fun c => c != '"')
    if g.isEmpty then none
    else
      match r.drop g.length with
      | '"' :: '>' :: _ => some (labelForLit ++ g ++ ['"', '>'], 12 + g.length + 2)
      | _ => none
  else none

/-- One match of `/<label for="([^"]+)"/` at the start of `s` (no closing
`>` required), as used by `checkLabelInputAssociation`. -/
def matchLabelQ (s : List Char) : Option (List Char × Nat) :=
  if labelForLit.isPrefixOf s then
    let r := s.drop 12
    let g := r.takeWhile (fun c => c != '"')
    if g.isEmpty then none
    else
      match r.drop g.length with
      | '"' :: _ => some (labelForLit ++ g ++ ['"'], 12 + g.length + 1)
      | _ => none
  else none

/-- One match of `/<input[^>]+id="([^"]+)"/` at the start of `s`.  The
greedy `[^>]+` with backtracking selects the largest split point `p ≥ 1`
such that the `p` characters after `<input` contain no `>` and the text at
that point matches `id="([^"]+)"`.  Candidate split points beyond the first
`>` fail the `[^>]` filter, so searching up to the maximal `>`-free run is
exhaustive. -/
def matchInputId (s : List Char) : Option (List Char × Nat) :=
  if inputLit.isPrefixOf s then
    let t := s.drop 6
    let r := t.takeWhile (fun c => c != '>')
    let ps := (List.range (r.length + 1)).filter
      (fun p => decide (1 ≤ p) && (t.take p).all (fun c => c != '>')
        && (matchPG idLit (t.drop p)).isSome)
    match ps.getLast? with
    | some p =>
      match matchPG idLit (t.drop p) with
      | some g => some (inputLit ++ t.take p ++ idLit ++ g ++ ['"'], 6 + p + 4 + g.length + 1)
      | none => none
    | none => none
  else none

/-- One match of `/<input[^>]+(type="text"|type="email"|type="number")[^>]*>/`
at the start of `s`.  All quantified parts exclude `>`, so any match extends
exactly to the first `>` after `<input`; a match exists iff that `>` exists
and one of the three type literals occurs at offset at least one inside the
`>`-free run. -/
def matchReqInput (s : List Char) : Option (List Char × Nat) :=
  if inputLit.isPrefixOf s then
    let t := s.drop 6
    let r := t.takeWhile (fun c => c != '>')
    match t.drop r.length with
    | '>' :: _ =>
      if containsSub typeTextLit (r.drop 1) || containsSub typeEmailLit (r.drop 1)
          || containsSub typeNumberLit (r.drop 1) then
        some (inputLit ++ r ++ ['>'], 6 + r.length + 1)
      else none
    | _ => none
  else none

/-- One match of an opening tag regex `op[^>]*>` (for `op` being `<input`
or `<label`) at the start of `s`. -/
def matchTag (op : List Char) (s : List Char) : Option (List Char × Nat) :=
  if op.isPrefixOf s then
    let t := s.drop op.length
    let r := t.takeWhile (fun c => c != '>')
    match t.drop r.length with
    | '>' :: _ => some (op ++ r ++ ['>'], op.length + r.length + 1)
    | _ => none
  else none

def voidMsg : List Char :=
  "Found </input> closing tags - input elements are void elements".data

def labelMsg (i : List Char) : List Char :=
  "Label with for=\"".data ++ i ++ "\" has no corresponding input with matching id".data

def reqMsg (t : List Char) : List Char :=
  "Input with type ".data ++ t ++ " should have required attribute".data

def emailMsg : List Char :=
  "Email input should have type=\"email\" instead of type=\"text\"".data

/-- Identifiers captured by `htmlContent.match(/<label for="([^"]+)">/g)`
followed by the per-match re-extraction `m.match(/for="([^"]+)"/)[1]`.
The `getD []` marks the spot where the source would dereference a null
match result; the lemmas toward claim C2 prove it is never hit. -/
def labelIds (s : List Char) : List (List Char) :=
  (scanAll matchLabelGT s).map (fun m => (extractGroup forLit m).getD [])

/-- Identifiers captured by `htmlContent.match(/<input[^>]+id="([^"]+)"/g)`
followed by the per-match re-extraction `m.match(/id="([^"]+)"/)[1]`. -/
def inputIds (s : List Char) : List (List Char) :=
  (scanAll matchInputId s).map (fun m => (extractGroup idLit m).getD [])

/-- Diagnostic for the `</input>` check of `validateFormStructure`. -/
def voidSegment (s : List Char) : List (List Char) :=
  if containsSub closeInputLit s then [voidMsg] else []

/-- Diagnostics of the label/input association check.  The source guards
the whole block with `if (labelMatches && inputIdMatches)`; a global match
returns `null` (falsy) exactly when there is no match, so the guard is
equivalent to both match lists being nonempty. -/
def labelSegment (s : List Char) : List (List Char) :=
  if (scanAll matchLabelGT s).isEmpty || (scanAll matchInputId s).isEmpty then []
  else ((labelIds s).filter (fun i => !(inputIds s).contains i)).map labelMsg

/-- Error accumulation of the required-attribute check: one diagnostic per
matched input tag lacking the substring `required`, naming the first
captured `type="…"` value of the tag. -/
def reqErrs : List (List Char) → List (List Char)
  | [] => []
  | m :: ms =>
    if containsSub requiredLit m then reqErrs ms
    else reqMsg ((extractGroup typeLit m).getD []) :: reqErrs ms

/-- Diagnostics of the required-attribute check of `validateFormStructure`. -/
def requiredSegment (s : List Char) : List (List Char) :=
  reqErrs (scanAll matchReqInput s)

/-- Diagnostic of the email-type check: emitted iff the markup does not
contain the substring `type="email"`. -/
def emailSegment (s : List Char) : List (List Char) :=
  if containsSub typeEmailLit s then [] else [emailMsg]

/-- Embedding of `DonationFormValidator.validateFormStructure`
(src/basic.js lines 9–48): the four checks push their diagnostics into one
list, in source order. -/
def validateFormStructure (s : List Char) : List (List Char) :=
  voidSegment s ++ labelSegment s ++ requiredSegment s ++ emailSegment s

/-- Captures of `htmlContent.match(/<label for="([^"]+)"/g)` (no trailing
`>`), used by `checkLabelInputAssociation`, with the per-match group
re-extraction. -/
def labelForsQ (s : List Char) : List (List Char) :=
  (scanAll matchLabelQ s).map (fun m => (extractGroup forLit m).getD [])

/-- Embedding of `DonationFormValidator.checkLabelInputAssociation`
(src/basic.js lines 101–109). -/
def checkLabelInputAssociation (s : List Char) : Bool :=
  (labelForsQ s).all (fun v => (inputIds s).contains v)

/-- Body of `validateAllRequirements` with the `labelInputAssociation`
entry abstracted, so that the `Option`-valued mirror can share it. -/
def validateAllRequirementsAux (s : List Char) (assoc : Bool) : List (String × Bool) :=
  [("noInputClosingTags", !containsSub closeInputLit s),
   ("fiveInputElements", (scanAll (matchTag inputLit) s).length == 5),
   ("fourLabelElements", (scanAll (matchTag labelLit) s).length == 4),
   ("firstLabelText", containsSub "<label for=\"fullName\">Full Name:</label>".data s),
   ("firstInputRequired",
     containsSub "<input type=\"text\" id=\"fullName\" name=\"name\" required>".data s),
   ("secondLabelText", containsSub "<label for=\"emailAddress\">Email Address:</label>".data s),
   ("secondInputRequired",
     containsSub "<input type=\"email\" id=\"emailAddress\" name=\"email\" required>".data s),
   ("thirdLabelText",
     containsSub "<label for=\"donationAmount\">Donation Amount ($):</label>".data s),
   ("thirdInputRequired",
     containsSub "<input type=\"number\" id=\"donationAmount\" name=\"amount\" required>".data s),
   ("fourthLabelText", containsSub "<label for=\"subscribe\">Subscribe</label>".data s),
   ("labelInputAssociation", assoc),
   ("emailInputType", containsSub typeEmailLit s),
   ("checkboxNotRequired",
     !containsSub "<input type=\"checkbox\" id=\"subscribe\" name=\"newsletter\" required>".data s),
   ("submitNotRequired", !containsSub "<input type=\"submit\" value=\"Send\" required>".data s)]

/-- Embedding of `DonationFormValidator.validateAllRequirements`
(src/basic.js lines 80–99): the fixed checklist of fourteen named boolean
rules, as an ordered association list. -/
def validateAllRequirements (s : List Char) : List (String × Bool) :=
  validateAllRequirementsAux s (checkLabelInputAssociation s)

/-- Embedding of `DonationFormValidator.generateCorrectedHTML`
(src/basic.js lines 51–77): the fixed reference template. -/
def generateCorrectedHTML : String :=
  "<!DOCTYPE html>
<html lang=\"en\">
<head>
  <meta charset=\"UTF-8\">
  <title>Donation Form</title>
</head>
<body>
  <h1>Donation Form</h1>
  <form>
    <label for=\"fullName\">Full Name:</label>
    <input type=\"text\" id=\"fullName\" name=\"name\" required>

    <label for=\"emailAddress\">Email Address:</label>
    <input type=\"email\" id=\"emailAddress\" name=\"email\" required>

    <label for=\"donationAmount\">Donation Amount ($):</label>
    <input type=\"number\" id=\"donationAmount\" name=\"amount\" required>

    <label for=\"subscribe\">Subscribe</label>
    <input type=\"checkbox\" id=\"subscribe\" name=\"newsletter\">

    <input type=\"submit\" value=\"Send\">
  </form>
</body>
</html>"

/-- The documented defective sample markup (src/basic.js lines 114–139;
the second copy of the validator carries the identical text). -/
def originalHTML : String :=
  "<!DOCTYPE html>
<html lang=\"en\">
<head>
  <meta charset=\"UTF-8\">
  <title>Donation Form</title>
</head>
<body>
  <h1>Donation Form</h1>
  <form>

    Full Name:
    <input type=\"text\" name=\"name\"></input>

    Email Address:
    <input type=\"text\" name=\"email\">

    Donation Amount ($):
    <input type=\"number\" name=\"amount\"></input>

    <input type=\"checkbox\" name=\"newsletter\"></input>
    Subscribe

    <input type=\"submit\" value=\"Send\"></input>
  </form>
</body>
</html>"

/-- Whitespace class of the regex `\s` escape (space, tab, newline,
vertical tab, form feed, carriage return). -/
def isWs (c : Char) : Bool :=
  c == ' ' || c == '\t' || c == '\n' || c == '\x0b' || c == '\x0c' || c == '\r'

/-- Match of a literal pattern at the start of `s`, returning the matched
length. -/
def matchLit (a : List Char) (s : List Char) : Option Nat :=
  if a.isPrefixOf s then some a.length else none

/-- Match of a pattern `a\s*b` (two literals separated by optional
whitespace) at the start of `s`, returning the matched length.  The
patterns used this way start their second literal with a non-whitespace
character, so the greedy `\s*` never backtracks. -/
def matchLitWsLit (a b : List Char) (s : List Char) : Option Nat :=
  if a.isPrefixOf s then
    let r := s.drop a.length
    let w := r.takeWhile isWs
    if b.isPrefixOf (r.drop w.length) then some (a.length + w.length + b.length)
    else none
  else none

/-- Replace-all scan: each leftmost match of `m` is replaced by `r` and
scanning resumes after the matched text, as `replaceAll` does.  Fuel
`s.length` is always sufficient since every step consumes at least one
character (`replaceScanF_fuel`). -/
def replaceScanF (m : List Char → Option Nat) (r : List Char) : Nat → List Char → List Char
  | _, [] => []
  | 0, s => s
  | f + 1, c :: cs =>
    match m (c :: cs) with
    | some n => r ++ replaceScanF m r f (cs.drop (n - 1))
    | none => c :: replaceScanF m r f cs

/-- Replacement of every match of `m` in `s` by `r`. -/
def replaceScan (m : List Char → Option Nat) (r : List Char) (s : List Char) : List Char :=
  replaceScanF m r s.length s

def fixEmailPat : List Char := "<input type=\"text\" name=\"email\">".data

def fixEmailRepl : List Char :=
  "<input type=\"email\" id=\"emailAddress\" name=\"email\" required>".data

def fixNamePatA : List Char := "Full Name:".data

def fixNamePatB : List Char := "<input type=\"text\" name=\"name\">".data

def fixNameRepl : List Char :=
  "<label for=\"fullName\">Full Name:</label>\n    <input type=\"text\" id=\"fullName\" name=\"name\" required>".data

def fixAmountPatA : List Char := "Donation Amount ($):".data

def fixAmountPatB : List Char := "<input type=\"number\" name=\"amount\">".data

def fixAmountRepl : List Char :=
  "<label for=\"donationAmount\">Donation Amount ($):</label>\n    <input type=\"number\" id=\"donationAmount\" name=\"amount\" required>".data

def fixNewsPatA : List Char := "<input type=\"checkbox\" name=\"newsletter\">".data

def fixNewsPatB : List Char := "Subscribe".data

def fixNewsRepl : List Char :=
  "<label for=\"subscribe\">Subscribe</label>\n    <input type=\"checkbox\" id=\"subscribe\" name=\"newsletter\">".data

/-- Embedding of `fixFormHTML` (second validator copy, lines 161–189): the
five `replaceAll` rewrites in source order.  The escape sequence in the
replacement texts is rendered as a newline, matching the layout of the
reference template the rewrites are aimed at. -/
def fixFormHTML (s : List Char) : List Char :=
  let s1 := replaceScan (matchLit closeInputLit) [] s
  let s2 := replaceScan (matchLit fixEmailPat) fixEmailRepl s1
  let s3 := replaceScan (matchLitWsLit fixNamePatA fixNamePatB) fixNameRepl s2
  let s4 := replaceScan (matchLitWsLit fixAmountPatA fixAmountPatB) fixAmountRepl s3
  replaceScan (matchLitWsLit fixNewsPatA fixNewsPatB) fixNewsRepl s4

/-- `Option`-valued mirror of mapping `m.match(p)[1]` over a match list:
`none` models the TypeError the source would raise if some match did not
contain the group pattern. -/
def mapExtractE (P : List Char) : List (List Char) → Option (List (List Char))
  | [] => some []
  | m :: ms =>
    match extractGroup P m with
    | none => none
    | some g => (mapExtractE P ms).map (fun l => g :: l)

/-- `Option`-valued mirror of `reqErrs`. -/
def reqErrsE : List (List Char) → Option (List (List Char))
  | [] => some []
  | m :: ms =>
    if containsSub requiredLit m then reqErrsE ms
    else
      match extractGroup typeLit m with
      | none => none
      | some t => (reqErrsE ms).map (fun l => reqMsg t :: l)

/-- `Option`-valued mirror of `labelSegment`. -/
def labelSegmentE (s : List Char) : Option (List (List Char)) :=
  if (scanAll matchLabelGT s).isEmpty || (scanAll matchInputId s).isEmpty then some []
  else
    match mapExtractE forLit (scanAll matchLabelGT s),
        mapExtractE idLit (scanAll matchInputId s) with
    | some ls, some ii => some ((ls.filter (fun i => !ii.contains i)).map labelMsg)
    | _, _ => none

/-- `Option`-valued mirror of `validateFormStructure`: `none` wherever the
source could raise. -/
def validateFormStructureE (s : List Char) : Option (List (List Char)) :=
  match labelSegmentE s, reqErrsE (scanAll matchReqInput s) with
  | some ls, some rs => some (voidSegment s ++ ls ++ rs ++ emailSegment s)
  | _, _ => none

/-- `Option`-valued mirror of `checkLabelInputAssociation`. -/
def checkLabelInputAssociationE (s : List Char) : Option Bool :=
  match mapExtractE forLit (scanAll matchLabelQ s),
      mapExtractE idLit (scanAll matchInputId s) with
  | some lf, some ii => some (lf.all (fun v => ii.contains v))
  | _, _ => none

/-- `Option`-valued mirror of `validateAllRequirements`. -/
def validateAllRequirementsE (s : List Char) : Option (List (String × Bool)) :=
  (checkLabelInputAssociationE s).map (validateAllRequirementsAux s)

/-! Basic facts about the scanners, used to justify the fuel discipline and
to relate the total definitions to their `Option`-valued mirrors. -/

/-- Fuel is immaterial for `scanAllF` as soon as it covers the input length:
every step consumes at least one character. -/
theorem scanAllF_fuel (m : List Char → Option (List Char × Nat)) :
    ∀ (f g : Nat) (s : List Char), s.length ≤ f → s.length ≤ g →
      scanAllF m f s = scanAllF m g s := by
  intro f
  induction f with
  | zero =>
    intro g s hf _
    have hs : s = [] := List.length_eq_zero.mp (Nat.le_zero.mp hf)
    subst hs
    cases g <;> rfl
  | succ f ih =>
    intro g s hf hg
    cases s with
    | nil => cases g <;> rfl
    | cons c cs =>
      cases g with
      | zero => simp at hg
      | succ g' =>
        have hf' : cs.length ≤ f := Nat.le_of_succ_le_succ (by simpa using hf)
        have hg' : cs.length ≤ g' := Nat.le_of_succ_le_succ (by simpa using hg)
        simp only [scanAllF]
        cases hm : m (c :: cs) with
        | none => exact ih g' cs hf' hg'
        | some tn =>
          obtain ⟨t, n⟩ := tn
          show t :: scanAllF m f (cs.drop (n - 1)) = t :: scanAllF m g' (cs.drop (n - 1))
          have hd : (cs.drop (n - 1)).length ≤ cs.length := by
            simp
          rw [ih g' (cs.drop (n - 1)) (Nat.le_trans hd hf') (Nat.le_trans hd hg')]

/-- Fuel is immaterial for `replaceScanF` as soon as it covers the input
length. -/
theorem replaceScanF_fuel (m : List Char → Option Nat) (r : List Char) :
    ∀ (f g : Nat) (s : List Char), s.length ≤ f → s.length ≤ g →
      replaceScanF m r f s = replaceScanF m r g s := by
  intro f
  induction f with
  | zero =>
    intro g s hf _
    have hs : s = [] := List.length_eq_zero.mp (Nat.le_zero.mp hf)
    subst hs
    cases g <;> rfl
  | succ f ih =>
    intro g s hf hg
    cases s with
    | nil => cases g <;> rfl
    | cons c cs =>
      cases g with
      | zero => simp at hg
      | succ g' =>
        have hf' : cs.length ≤ f := Nat.le_of_succ_le_succ (by simpa using hf)
        have hg' : cs.length ≤ g' := Nat.le_of_succ_le_succ (by simpa using hg)
        simp only [replaceScanF]
        cases hm : m (c :: cs) with
        | none =>
          show c :: replaceScanF m r f cs = c :: replaceScanF m r g' cs
          rw [ih g' cs hf' hg']
        | some n =>
          show r ++ replaceScanF m r f (cs.drop (n - 1))
              = r ++ replaceScanF m r g' (cs.drop (n - 1))
          have hd : (cs.drop (n - 1)).length ≤ cs.length := by
            simp
          rw [ih g' (cs.drop (n - 1)) (Nat.le_trans hd hf') (Nat.le_trans hd hg')]

/-- Characterization of substring containment as an explicit decomposition. -/
theorem containsSub_iff (pat s : List Char) :
    containsSub pat s = true ↔ ∃ a b, s = a ++ pat ++ b := by
  induction s with
  | nil =>
    simp only [containsSub, List.isEmpty_iff]
    constructor
    · intro h
      exact ⟨[], [], by simp [h]⟩
    · rintro ⟨a, b, hab⟩
      rcases List.append_eq_nil.mp (List.append_eq_nil.mp hab.symm).1 with ⟨-, h2⟩
      exact h2
  | cons c cs ih =>
    simp only [containsSub, Bool.or_eq_true, List.isPrefixOf_iff_prefix, ih]
    constructor
    · rintro (⟨t, ht⟩ | ⟨a, b, hab⟩)
      · exact ⟨[], t, by simp [← ht]⟩
      · exact ⟨c :: a, b, by simp [hab]⟩
    · rintro ⟨a, b, hab⟩
      cases a with
      | nil =>
        exact Or.inl ⟨b, by simpa using hab.symm⟩
      | cons a0 a' =>
        rcases List.cons.injEq .. ▸ hab with ⟨-, h2⟩
        exact Or.inr ⟨a', b, h2⟩

/-- Shape of a successful `matchPG`: the input decomposes as the literal,
the nonempty quote-free group, a quote, and a remainder. -/
theorem matchPG_eq_some {P s g : List Char} (h : matchPG P s = some g) :
    g ≠ [] ∧ (∀ c ∈ g, (c != '"') = true) ∧ ∃ t, s = P ++ g ++ '"' :: t := by
  simp only [matchPG] at h
  split at h
  case isFalse => exact absurd h (by simp)
  case isTrue hp =>
    obtain ⟨rest, hrest⟩ := List.isPrefixOf_iff_prefix.mp hp
    have hdrop : s.drop P.length = rest := by
      rw [← hrest]; exact List.drop_left _ _
    rw [hdrop] at h
    split at h
    case isTrue => exact absurd h (by simp)
    case isFalse hne =>
      split at h
      case h_1 t' heq =>
        obtain rfl : rest.takeWhile (fun c => c != '"') = g := by
          injection h
        refine ⟨by simpa [List.isEmpty_iff] using hne,
          fun c hc => by simpa using List.mem_takeWhile_imp hc, t', ?_⟩
        rw [← hrest]
        have : rest = rest.takeWhile (fun c => c != '"')
            ++ rest.dropWhile (fun c => c != '"') :=
          (List.takeWhile_append_dropWhile _ _).symm
        have hdw : rest.dropWhile (fun c => c != '"') = '"' :: t' := by
          have hlen : (rest.takeWhile (fun c => c != '"')).length
              = (rest.takeWhile (fun c => c != '"')).length := rfl
          calc rest.dropWhile (fun c => c != '"')
              = (rest.takeWhile (fun c => c != '"')
                  ++ rest.dropWhile (fun c => c != '"')).drop
                    (rest.takeWhile (fun c => c != '"')).length := by
                rw [List.drop_left]
            _ = rest.drop (rest.takeWhile (fun c => c != '"')).length := by
                rw [List.takeWhile_append_dropWhile]
            _ = '"' :: t' := heq
        conv_lhs => rw [this, hdw]
        simp
      case h_2 => exact absurd h (by simp)

/-- `matchPG` succeeds on an input that starts with the literal followed by
a nonempty quote-free group and a closing quote. -/
theorem matchPG_self {P g t : List Char} (hg : g ≠ [])
    (hq : ∀ c ∈ g, (c != '"') = true) :
    matchPG P (P ++ g ++ '"' :: t) = some g := by
  rw [List.append_assoc]
  have hpre : P.isPrefixOf (P ++ (g ++ '"' :: t)) = true :=
    List.isPrefixOf_iff_prefix.mpr (List.prefix_append _ _)
  have hdrop : (P ++ (g ++ '"' :: t)).drop P.length = g ++ '"' :: t :=
    List.drop_left _ _
  have htw : (g ++ '"' :: t).takeWhile (fun c => c != '"') = g := by
    rw [List.takeWhile_append_of_pos hq]
    simp
  simp only [matchPG]
  rw [if_pos hpre, hdrop, htw, if_neg (by simpa [List.isEmpty_iff] using hg)]
  rw [List.drop_left]
  rfl

/-- `extractGroup` succeeds on any string that contains the literal followed
by a nonempty quote-free group and a closing quote. -/
theorem extractGroup_isSome {P g t : List Char} (hP : P ≠ []) (hg : g ≠ [])
    (hq : ∀ c ∈ g, (c != '"') = true) (pre : List Char) :
    (extractGroup P (pre ++ (P ++ g ++ '"' :: t))).isSome = true := by
  induction pre with
  | nil =>
    rw [List.nil_append]
    have hm : matchPG P (P ++ g ++ '"' :: t) = some g := matchPG_self hg hq
    obtain ⟨p, P', rfl⟩ : ∃ p P', P = p :: P' := by
      cases P with
      | nil => exact absurd rfl hP
      | cons p P' => exact ⟨p, P', rfl⟩
    simp only [List.cons_append, List.append_assoc] at hm ⊢
    simp [extractGroup, hm]
  | cons a pre' ih =>
    simp only [List.cons_append, List.append_assoc] at ih ⊢
    cases hm : matchPG P (a :: (pre' ++ (P ++ (g ++ '"' :: t)))) with
    | some g' => simp [extractGroup, hm]
    | none =>
      simp only [extractGroup, hm]
      exact ih

/-- Every text in the output of a scan is the text of a successful match. -/
theorem scanAll_mem {m : List Char → Option (List Char × Nat)} :
    ∀ {f : Nat} {s t : List Char}, t ∈ scanAllF m f s → ∃ u n, m u = some (t, n) := by
  intro f
  induction f with
  | zero =>
    intro s t h
    cases s <;> simp [scanAllF] at h
  | succ f ih =>
    intro s t h
    cases s with
    | nil => simp [scanAllF] at h
    | cons c cs =>
      simp only [scanAllF] at h
      cases hm : m (c :: cs) with
      | none =>
        rw [hm] at h
        exact ih h
      | some tn =>
        obtain ⟨t', n⟩ := tn
        simp only [hm] at h
        rcases List.mem_cons.mp h with rfl | h'
        · exact ⟨c :: cs, n, hm⟩
        · exact ih h'

/-- Every match text of the `<label for="([^"]+)">` scan contains a
re-extractable `for="…"` group (so the source's `m.match(/for="…/)[1]`
cannot fail). -/
theorem matchLabelGT_extract {s t : List Char} {n : Nat}
    (h : matchLabelGT s = some (t, n)) : (extractGroup forLit t).isSome = true := by
  simp only [matchLabelGT] at h
  split at h
  case isFalse => exact absurd h (by simp)
  case isTrue hp =>
    obtain ⟨rest, hrest⟩ := List.isPrefixOf_iff_prefix.mp hp
    have hdrop : s.drop 12 = rest := by
      rw [← hrest]
      exact List.drop_left' (by decide)
    rw [hdrop] at h
    split at h
    case isTrue => exact absurd h (by simp)
    case isFalse hne =>
      split at h
      case h_1 tail heq =>
        have ht : labelForLit ++ rest.takeWhile (fun c => c != '"') ++ ['"', '>'] = t := by
          injection h with h1
          exact congrArg Prod.fst h1
        have hgne : rest.takeWhile (fun c => c != '"') ≠ [] := by
          simpa [List.isEmpty_iff] using hne
        have hqg : ∀ c ∈ rest.takeWhile (fun c => c != '"'), (c != '"') = true :=
          fun c hc => by simpa using List.mem_takeWhile_imp hc
        have hx := extractGroup_isSome (P := forLit) (t := ['>']) (by decide) hgne hqg
          "<label ".data
        have harg : "<label ".data
              ++ (forLit ++ rest.takeWhile (fun c => c != '"') ++ '"' :: ['>'])
            = labelForLit ++ rest.takeWhile (fun c => c != '"') ++ ['"', '>'] := by
          rw [show labelForLit = "<label ".data ++ forLit from by decide]
          simp [List.append_assoc]
        rw [harg, ht] at hx
        exact hx
      case h_2 => exact absurd h (by simp)

/-- Every match text of the `<label for="([^"]+)"` scan contains a
re-extractable `for="…"` group. -/
theorem matchLabelQ_extract {s t : List Char} {n : Nat}
    (h : matchLabelQ s = some (t, n)) : (extractGroup forLit t).isSome = true := by
  simp only [matchLabelQ] at h
  split at h
  case isFalse => exact absurd h (by simp)
  case isTrue hp =>
    obtain ⟨rest, hrest⟩ := List.isPrefixOf_iff_prefix.mp hp
    have hdrop : s.drop 12 = rest := by
      rw [← hrest]
      exact List.drop_left' (by decide)
    rw [hdrop] at h
    split at h
    case isTrue => exact absurd h (by simp)
    case isFalse hne =>
      split at h
      case h_1 tail heq =>
        have ht : labelForLit ++ rest.takeWhile (fun c => c != '"') ++ ['"'] = t := by
          injection h with h1
          exact congrArg Prod.fst h1
        have hgne : rest.takeWhile (fun c => c != '"') ≠ [] := by
          simpa [List.isEmpty_iff] using hne
        have hqg : ∀ c ∈ rest.takeWhile (fun c => c != '"'), (c != '"') = true :=
          fun c hc => by simpa using List.mem_takeWhile_imp hc
        have hx := extractGroup_isSome (P := forLit) (t := []) (by decide) hgne hqg
          "<label ".data
        have harg : "<label ".data
              ++ (forLit ++ rest.takeWhile (fun c => c != '"') ++ '"' :: [])
            = labelForLit ++ rest.takeWhile (fun c => c != '"') ++ ['"'] := by
          rw [show labelForLit = "<label ".data ++ forLit from by decide]
          simp [List.append_assoc]
        rw [harg, ht] at hx
        exact hx
      case h_2 => exact absurd h (by simp)

/-- Every match text of the `<input[^>]+id="([^"]+)"` scan contains a
re-extractable `id="…"` group. -/
theorem matchInputId_extract {s t : List Char} {n : Nat}
    (h : matchInputId s = some (t, n)) : (extractGroup idLit t).isSome = true := by
  simp only [matchInputId] at h
  split at h
  case isFalse => exact absurd h (by simp)
  case isTrue hp =>
    split at h
    case h_2 => exact absurd h (by simp)
    case h_1 p hps =>
      split at h
      case h_2 => exact absurd h (by simp)
      case h_1 g hmg =>
        have ht : inputLit ++ (s.drop 6).take p ++ idLit ++ g ++ ['"'] = t := by
          injection h with h1
          exact congrArg Prod.fst h1
        obtain ⟨hgne, hqg, -⟩ := matchPG_eq_some hmg
        have hx := extractGroup_isSome (t := []) (P := idLit) (by decide) hgne hqg
          (inputLit ++ (s.drop 6).take p)
        have harg : (inputLit ++ (s.drop 6).take p) ++ (idLit ++ g ++ '"' :: [])
            = inputLit ++ (s.drop 6).take p ++ idLit ++ g ++ ['"'] := by
          simp [List.append_assoc]
        rw [harg, ht] at hx
        exact hx

/-- Every match text of the required-attribute scan contains a
re-extractable `type="…"` group. -/
theorem matchReqInput_extract {s t : List Char} {n : Nat}
    (h : matchReqInput s = some (t, n)) : (extractGroup typeLit t).isSome = true := by
  simp only [matchReqInput] at h
  split at h
  case isFalse => exact absurd h (by simp)
  case isTrue hp =>
    split at h
    case h_2 => exact absurd h (by simp)
    case h_1 tail heq =>
      split at h
      case isFalse => exact absurd h (by simp)
      case isTrue hc =>
        have ht : inputLit ++ (s.drop 6).takeWhile (fun c => c != '>') ++ ['>'] = t := by
          injection h with h1
          exact congrArg Prod.fst h1
        set r := (s.drop 6).takeWhile (fun c => c != '>') with hr
        have main : ∀ w : List Char, w ≠ [] → (∀ c ∈ w, (c != '"') = true) →
            containsSub (typeLit ++ w ++ ['"']) (r.drop 1) = true →
            (extractGroup typeLit t).isSome = true := by
          intro w hw hwq hcw
          obtain ⟨a, b, hab⟩ := (containsSub_iff _ _).mp hcw
          have hx := extractGroup_isSome (t := b ++ ['>']) (P := typeLit) (by decide) hw hwq
            (inputLit ++ r.take 1 ++ a)
          have harg : (inputLit ++ r.take 1 ++ a) ++ (typeLit ++ w ++ '"' :: (b ++ ['>']))
              = inputLit ++ r ++ ['>'] := by
            conv_rhs => rw [← List.take_append_drop 1 r, hab]
            simp [List.append_assoc]
          rw [harg, ht] at hx
          exact hx
        rcases Bool.or_eq_true _ _ |>.mp hc with hc' | hc3
        · rcases Bool.or_eq_true _ _ |>.mp hc' with hc1 | hc2
          · exact main "text".data (by decide) (by decide)
              (by rw [show typeLit ++ "text".data ++ ['"'] = typeTextLit from by decide]; exact hc1)
          · exact main "email".data (by decide) (by decide)
              (by rw [show typeLit ++ "email".data ++ ['"'] = typeEmailLit from by decide]; exact hc2)
        · exact main "number".data (by decide) (by decide)
            (by rw [show typeLit ++ "number".data ++ ['"'] = typeNumberLit from by decide]; exact hc3)

/-- When group extraction succeeds on every element, the `Option`-valued
extraction map agrees with the total one. -/
theorem mapExtractE_eq {P : List Char} : ∀ {l : List (List Char)},
    (∀ m ∈ l, (extractGroup P m).isSome = true) →
    mapExtractE P l = some (l.map (fun m => (extractGroup P m).getD [])) := by
  intro l
  induction l with
  | nil => intro _; rfl
  | cons m ms ih =>
    intro h
    obtain ⟨g, hg⟩ := Option.isSome_iff_exists.mp (h m (List.mem_cons_self m _))
    simp only [mapExtractE, hg, ih (fun x hx => h x (List.mem_cons_of_mem _ hx)),
      Option.map_some, List.map_cons, Option.some.injEq, List.cons.injEq]
    simp [hg]

/-- When type extraction succeeds on every element, the `Option`-valued
required-attribute accumulation agrees with the total one. -/
theorem reqErrsE_eq : ∀ {l : List (List Char)},
    (∀ m ∈ l, (extractGroup typeLit m).isSome = true) →
    reqErrsE l = some (reqErrs l) := by
  intro l
  induction l with
  | nil => intro _; rfl
  | cons m ms ih =>
    intro h
    have ih' := ih (fun x hx => h x (List.mem_cons_of_mem _ hx))
    by_cases hc : containsSub requiredLit m = true
    · simp only [reqErrsE, reqErrs, if_pos hc]
      exact ih'
    · obtain ⟨g, hg⟩ := Option.isSome_iff_exists.mp (h m (List.mem_cons_self m _))
      simp only [reqErrsE, reqErrs, if_neg hc, hg, ih', Option.map_some]
      simp [hg]

/-- The `Option`-valued label segment agrees with the total one. -/
theorem labelSegmentE_eq (s : List Char) : labelSegmentE s = some (labelSegment s) := by
  unfold labelSegmentE labelSegment
  split
  case isTrue => rfl
  case isFalse hcond =>
    have h1 : mapExtractE forLit (scanAll matchLabelGT s) = some (labelIds s) := by
      rw [labelIds]
      exact mapExtractE_eq (fun m hm => by
        obtain ⟨u, n, hu⟩ := scanAll_mem hm
        exact matchLabelGT_extract hu)
    have h2 : mapExtractE idLit (scanAll matchInputId s) = some (inputIds s) := by
      rw [inputIds]
      exact mapExtractE_eq (fun m hm => by
        obtain ⟨u, n, hu⟩ := scanAll_mem hm
        exact matchInputId_extract hu)
    rw [h1, h2]

/-- The `Option`-valued association check agrees with the total one. -/
theorem checkAssocE_eq (s : List Char) :
    checkLabelInputAssociationE s = some (checkLabelInputAssociation s) := by
  unfold checkLabelInputAssociationE checkLabelInputAssociation
  have h1 : mapExtractE forLit (scanAll matchLabelQ s) = some (labelForsQ s) := by
    rw [labelForsQ]
    exact mapExtractE_eq (fun m hm => by
      obtain ⟨u, n, hu⟩ := scanAll_mem hm
      exact matchLabelQ_extract hu)
  have h2 : mapExtractE idLit (scanAll matchInputId s) = some (inputIds s) := by
    rw [inputIds]
    exact mapExtractE_eq (fun m hm => by
      obtain ⟨u, n, hu⟩ := scanAll_mem hm
      exact matchInputId_extract hu)
  rw [h1, h2]

/-- Diagnostics produced by the required-attribute accumulation all have
the `reqMsg` shape. -/
theorem mem_reqErrs {x : List Char} : ∀ {l : List (List Char)},
    x ∈ reqErrs l → ∃ t, x = reqMsg t := by
  intro l
  induction l with
  | nil => intro h; simp [reqErrs] at h
  | cons m ms ih =>
    intro h
    by_cases hc : containsSub requiredLit m = true
    · rw [reqErrs, if_pos hc] at h
      exact ih h
    · rw [reqErrs, if_neg hc] at h
      rcases List.mem_cons.mp h with rfl | h'
      · exact ⟨_, rfl⟩
      · exact ih h'

theorem labelMsg_head (i : List Char) : labelMsg i =
    'L' :: ("abel with for=\"".data ++ i
      ++ "\" has no corresponding input with matching id".data) := rfl

theorem reqMsg_head (t : List Char) : reqMsg t =
    'I' :: ("nput with type ".data ++ t ++ " should have required attribute".data) := rfl

theorem emailMsg_head : emailMsg =
    'E' :: "mail input should have type=\"email\" instead of type=\"text\"".data := rfl

theorem labelMsg_ne_emailMsg (i : List Char) : labelMsg i ≠ emailMsg := by
  intro h
  rw [labelMsg_head, emailMsg_head] at h
  injection h with h1 _
  exact absurd h1 (by decide)

theorem reqMsg_ne_emailMsg (t : List Char) : reqMsg t ≠ emailMsg := by
  intro h
  rw [reqMsg_head, emailMsg_head] at h
  injection h with h1 _
  exact absurd h1 (by decide)

/-- Elements of the label segment all have the `labelMsg` shape. -/
theorem mem_labelSegment {x : List Char} {s : List Char} (h : x ∈ labelSegment s) :
    ∃ i, x = labelMsg i := by
  rw [labelSegment] at h
  split at h
  · simp at h
  · obtain ⟨i, -, rfl⟩ := List.mem_map.mp h
    exact ⟨i, rfl⟩

/-- Elements of the void segment are the void diagnostic. -/
theorem mem_voidSegment {x : List Char} {s : List Char} (h : x ∈ voidSegment s) :
    x = voidMsg := by
  rw [voidSegment] at h
  split at h
  · simpa using h
  · simp at h

/-- Elements of the email segment are the email diagnostic, present only
when the email-type substring is absent. -/
theorem mem_emailSegment {x : List Char} {s : List Char} (h : x ∈ emailSegment s) :
    x = emailMsg ∧ containsSub typeEmailLit s = false := by
  rw [emailSegment] at h
  split at h
  case isTrue => simp at h
  case isFalse hc => exact ⟨by simpa using h, by simpa using hc⟩

/-- Evaluation of the validator on the documented defective sample. -/
theorem validateFormStructure_originalHTML :
    validateFormStructure originalHTML.data =
      [voidMsg, reqMsg "text".data, reqMsg "text".data, reqMsg "number".data, emailMsg] := by
  decide

/-- C1 (counterexample): on the documented sample markup the returned
diagnostics are exactly the void-tag diagnostic, three required-attribute
diagnostics and the email-type diagnostic; no diagnostic carrying the
`Label with for="` prefix (the shape of every unassociated-identifier
diagnostic) occurs, contrary to the claim that diagnostics naming the two
unassociated field identifiers are present. -/
theorem c1_counterexample :
    validateFormStructure originalHTML.data =
      [voidMsg, reqMsg "text".data, reqMsg "text".data, reqMsg "number".data, emailMsg] ∧
    (validateFormStructure originalHTML.data).all
      (fun d => !("Label with for=\"".data.isPrefixOf d)) = true := by
  refine ⟨validateFormStructure_originalHTML, ?_⟩
  rw [validateFormStructure_originalHTML]
  decide

/-- C1 (amended): on the documented sample markup `validateFormStructure`
returns a non-empty diagnostic sequence containing the void-closing-tag
diagnostic, the email-type diagnostic and the required-attribute
diagnostics for the text and number variants; it contains no
label-association diagnostics because the sample has no label elements at
all (so the guarded association check is skipped). -/
theorem c1_sample_diagnostics :
    validateFormStructure originalHTML.data ≠ [] ∧
    voidMsg ∈ validateFormStructure originalHTML.data ∧
    emailMsg ∈ validateFormStructure originalHTML.data ∧
    reqMsg "text".data ∈ validateFormStructure originalHTML.data ∧
    reqMsg "number".data ∈ validateFormStructure originalHTML.data := by
  rw [validateFormStructure_originalHTML]
  refine ⟨by simp, by simp, by simp, by simp, by simp⟩

/-- C2: every operation is total.  The `Option`-valued mirrors — which
return `none` exactly where the JavaScript code would dereference a null
match result — succeed on every input and agree with the total embedding,
and `fixFormHTML` (a pure chain of replacements) maps the documented
sample to an actual (nonempty) output string.  `generateCorrectedHTML` is
a constant and cannot fail. -/
theorem c2_totality :
    (∀ s : List Char, validateFormStructureE s = some (validateFormStructure s) ∧
      validateAllRequirementsE s = some (validateAllRequirements s)) ∧
    fixFormHTML originalHTML.data ≠ [] := by
  constructor
  · intro s
    have hreq : reqErrsE (scanAll matchReqInput s)
        = some (reqErrs (scanAll matchReqInput s)) :=
      reqErrsE_eq (fun m hm => by
        obtain ⟨u, n, hu⟩ := scanAll_mem hm
        exact matchReqInput_extract hu)
    constructor
    · rw [validateFormStructureE, labelSegmentE_eq s, hreq]
      rfl
    · rw [validateAllRequirementsE, checkAssocE_eq s]
      rfl
  · decide

/-- C3 (counterexample): on markup consisting of a single label whose
target has no matching input id — indeed no input has an id at all — the
orphaned identifier `donor` receives no diagnostic, because the source
guards the association check by both match lists being non-null. -/
theorem c3_counterexample :
    "donor".data ∈ labelIds "<label for=\"donor\">".data ∧
    inputIds "<label for=\"donor\">".data = [] ∧
    labelMsg "donor".data ∉ validateFormStructure "<label for=\"donor\">".data := by
  refine ⟨by decide, by decide, by decide⟩

/-- C3 (amended): whenever the markup has at least one `<input … id="…"`
match, every label `for`-target without a matching input id receives a
diagnostic naming it.  (When no input id matches, the check is skipped
entirely, as the counterexample shows.) -/
theorem c3_orphan_label_diag (s : List Char) (hin : scanAll matchInputId s ≠ [])
    (i : List Char) (hl : i ∈ labelIds s) (hni : i ∉ inputIds s) :
    labelMsg i ∈ validateFormStructure s := by
  have hlm : scanAll matchLabelGT s ≠ [] := by
    intro h0
    rw [labelIds, h0] at hl
    simp at hl
  have hseg : labelMsg i ∈ labelSegment s := by
    rw [labelSegment, if_neg (by simp [List.isEmpty_iff, hlm, hin])]
    exact List.mem_map.mpr ⟨i, List.mem_filter.mpr ⟨hl, by simp [hni]⟩, rfl⟩
  rw [validateFormStructure]
  exact List.mem_append.mpr (Or.inl (List.mem_append.mpr (Or.inl
    (List.mem_append.mpr (Or.inr hseg)))))

/-- C3 (witness): a markup with one orphaned label target and one
unrelated input id receives the orphan diagnostic. -/
theorem c3_orphan_label_diag_witness :
    labelMsg "a".data ∈ validateFormStructure "<label for=\"a\">x<input q id=\"b\">".data :=
  c3_orphan_label_diag _ (by decide) _ (by decide) (by decide)

/-- C4: the validator accepts the reference template with no diagnostics. -/
theorem c4_reference_clean :
    validateFormStructure generateCorrectedHTML.data = [] := by
  decide

/-- C5: every rule of `validateAllRequirements` passes on the reference
template. -/
theorem c5_reference_all_rules :
    (validateAllRequirements generateCorrectedHTML.data).all (fun p => p.2) = true := by
  decide

/-- C6: the fix transform is idempotent on the documented sample input. -/
theorem c6_fix_idempotent :
    fixFormHTML (fixFormHTML originalHTML.data) = fixFormHTML originalHTML.data := by
  decide

/-- C7 (counterexample): markup containing the substring `type="email"`
outside any input element — here no input element exists at all — gets no
email-type diagnostic, although no input element carries the email variant;
the check is a bare substring test, not a per-input-element test. -/
theorem c7_counterexample :
    scanAll (matchTag inputLit) "<p type=\"email\"></p>".data = [] ∧
    emailMsg ∉ validateFormStructure "<p type=\"email\"></p>".data := by
  refine ⟨by decide, by decide⟩

/-- C7 (amended): the email-type diagnostic is present exactly when the
markup does not contain the substring `type="email"` anywhere (not: when
no input element carries the email variant). -/
theorem c7_email_diag_iff (s : List Char) :
    emailMsg ∈ validateFormStructure s ↔ containsSub typeEmailLit s = false := by
  rw [validateFormStructure]
  constructor
  · intro h
    rcases List.mem_append.mp h with h3 | h4
    · exfalso
      rcases List.mem_append.mp h3 with h1 | h2
      · rcases List.mem_append.mp h1 with hv | hl
        · exact absurd (mem_voidSegment hv).symm (by decide)
        · obtain ⟨i, hi⟩ := mem_labelSegment hl
          exact labelMsg_ne_emailMsg i hi.symm
      · obtain ⟨t, ht⟩ := mem_reqErrs h2
        exact reqMsg_ne_emailMsg t ht.symm
    · exact (mem_emailSegment h4).2
  · intro hc
    refine List.mem_append.mpr (Or.inr ?_)
    simp [emailSegment, hc]

/-- C8: the rule-name keys of `validateAllRequirements` form a fixed closed
list, identical for all inputs. -/
theorem c8_fixed_rule_names (s t : List Char) :
    (validateAllRequirements s).map Prod.fst = (validateAllRequirements t).map Prod.fst ∧
    (validateAllRequirements s).map Prod.fst =
      ["noInputClosingTags", "fiveInputElements", "fourLabelElements", "firstLabelText",
       "firstInputRequired", "secondLabelText", "secondInputRequired", "thirdLabelText",
       "thirdInputRequired", "fourthLabelText", "labelInputAssociation", "emailInputType",
       "checkboxNotRequired", "submitNotRequired"] :=
  ⟨rfl, rfl⟩

/-- C9: when the markup yields no label-`for` capture at all,
`checkLabelInputAssociation` is vacuously true and the
`labelInputAssociation` rule passes. -/
theorem c9_vacuous_assoc (s : List Char) (h : labelForsQ s = []) :
    checkLabelInputAssociation s = true ∧
    ("labelInputAssociation", true) ∈ validateAllRequirements s := by
  have h1 : checkLabelInputAssociation s = true := by
    rw [checkLabelInputAssociation, h]
    rfl
  refine ⟨h1, ?_⟩
  rw [validateAllRequirements, h1]
  simp [validateAllRequirementsAux]

/-- C9 (witness): the empty markup passes the association rule. -/
theorem c9_vacuous_assoc_witness :
    checkLabelInputAssociation [] = true ∧
    ("labelInputAssociation", true) ∈ validateAllRequirements [] :=
  c9_vacuous_assoc [] rfl

/-- C10: the reference template is a fixed point of the fix transform. -/
theorem c10_reference_fixed_point :
    fixFormHTML generateCorrectedHTML.data = generateCorrectedHTML.data := by
  decide

end DonationForm
